import Mathlib

/-!
Verification of the rift PostgreSQL-branching proxy.

Shallow embedding of the Go sources: strings are modelled as `List Char`
(`GoStr`), bytes as `Nat` values below 256, and I/O streams as lists.
Database and network effects are abstracted as oracle parameters where a
function's control flow does not depend on them.
-/

namespace Rift

abbrev GoStr := List Char

/-- Model of Go `strings.HasSuffix`. -/
def hasSuffix (s suf : GoStr) : Bool := List.isSuffixOf suf s

/-- Model of Go `strings.Index` restricted to returning the first index at
which `pat` occurs in `s` (as `Option Nat` instead of `-1`). -/
def strIndexAux (pat : GoStr) : GoStr → Nat → Option Nat
  | [], i => if List.isPrefixOf pat [] then some i else none
  | c :: t, i =>
    if List.isPrefixOf pat (c :: t) then some i else strIndexAux pat t (i + 1)

def strIndex (s pat : GoStr) : Option Nat := strIndexAux pat s 0

/-- Model of Go `strings.Replace(s, old, new, 1)`: replace the first
occurrence only. -/
def replaceFirst (s old new : GoStr) : GoStr :=
  match strIndex s old with
  | none => s
  | some i => s.take i ++ new ++ s.drop (i + old.length)

/-- Fuelled worker for `replaceAll` (Go `strings.ReplaceAll`): scanning
resumes after the inserted replacement. -/
def replaceAllAux (old new : GoStr) : Nat → GoStr → GoStr
  | 0, s => s
  | fuel + 1, s =>
    match strIndex s old with
    | none => s
    | some i => s.take i ++ new ++ replaceAllAux old new fuel (s.drop (i + old.length))

/-- Model of Go `strings.ReplaceAll`. -/
def replaceAll (s old new : GoStr) : GoStr := replaceAllAux old new (s.length + 1) s

/-- ASCII uppercase conversion of one char, as Go `strings.ToUpper` acts on
the ASCII inputs that reach it here. -/
def toUpperChar (c : Char) : Char :=
  if 97 ≤ c.toNat ∧ c.toNat ≤ 122 then Char.ofNat (c.toNat - 32) else c

/-- ASCII lowercase conversion of one char, as Go `strings.ToLower` acts on
the ASCII inputs that reach it here. -/
def toLowerChar (c : Char) : Char :=
  if 65 ≤ c.toNat ∧ c.toNat ≤ 90 then Char.ofNat (c.toNat + 32) else c

def toUpperStr (s : GoStr) : GoStr := s.map toUpperChar

def toLowerStr (s : GoStr) : GoStr := s.map toLowerChar

/-- Whitespace recognised by Go `strings.TrimSpace` (ASCII portion). -/
def isSpaceChar (c : Char) : Bool :=
  c = ' ' || c = '\t' || c = '\n' || c = '\x0b' || c = '\x0c' || c = '\r'

def trimRightIf (p : Char → Bool) (s : GoStr) : GoStr :=
  (s.reverse.dropWhile p).reverse

/-- Model of Go `strings.TrimSpace`. -/
def trimSpace (s : GoStr) : GoStr := trimRightIf isSpaceChar (s.dropWhile isSpaceChar)

/-- Model of Go `strings.TrimRight(s, ";")`. -/
def trimRightSemi (s : GoStr) : GoStr := trimRightIf (fun c => c = ';') s

/-- Model of Go `strings.Join`. -/
def joinStr (sep : GoStr) : List GoStr → GoStr
  | [] => []
  | [x] => x
  | x :: y :: rest => x ++ sep ++ joinStr sep (y :: rest)

/-- Byte-wise lexicographic `<` on Go strings (all inputs here are ASCII, so
char codepoints agree with bytes). -/
def goStrLt : GoStr → GoStr → Bool
  | [], [] => false
  | [], _ :: _ => true
  | _ :: _, [] => false
  | a :: s, b :: t =>
    if a.toNat < b.toNat then true
    else if b.toNat < a.toNat then false
    else goStrLt s t

/-! ## Wire codec (`internal/pgwire/buffer.go`) -/

/-- `MaxMessageSize = 1 << 30` from buffer.go. -/
def MaxMessageSize : Nat := 2 ^ 30

/-- Errors surfaced by the codec reads. -/
inductive WireErr where
  | eof
  | tooLarge
deriving DecidableEq

/-- `binary.BigEndian.Uint32` over the first four stream bytes. -/
def fromBE32 : List Nat → Nat
  | b0 :: b1 :: b2 :: b3 :: _ => ((b0 * 256 + b1) * 256 + b2) * 256 + b3
  | _ => 0

/-- `binary.BigEndian.PutUint32` of `n` (as Go's `uint32(n)`). -/
def toBE32 (n : Nat) : List Nat :=
  [n / 2 ^ 24 % 256, n / 2 ^ 16 % 256, n / 2 ^ 8 % 256, n % 256]

/-- `ReadMessage(r)`: five header bytes (type + u32 length including itself),
length check against `MaxMessageSize`, then the payload.  Returns the unread
remainder of the stream along with the message. -/
def readMessage (input : List Nat) : Except WireErr (Nat × List Nat × List Nat) :=
  if input.length < 5 then .error .eof
  else
    let msgType := input.headI
    let len : Int := (fromBE32 (input.drop 1) : Int) - 4
    if len < 0 ∨ len > (MaxMessageSize : Int) then .error .tooLarge
    else
      let rest := input.drop 5
      if rest.length < len.toNat then .error .eof
      else .ok (msgType, rest.take len.toNat, rest.drop len.toNat)

/-- `ReadStartupMessage(r)`: four length bytes (no type byte), the same
length check, then the payload. -/
def readStartupMessage (input : List Nat) : Except WireErr (List Nat × List Nat) :=
  if input.length < 4 then .error .eof
  else
    let len : Int := (fromBE32 input : Int) - 4
    if len < 0 ∨ len > (MaxMessageSize : Int) then .error .tooLarge
    else
      let rest := input.drop 4
      if rest.length < len.toNat then .error .eof
      else .ok (rest.take len.toNat, rest.drop len.toNat)

/-- `WriteMessage(w, t, payload)`: type byte, `uint32(len(payload)+4)`
big-endian, then the payload. -/
def writeMessage (msgType : Nat) (payload : List Nat) : List Nat :=
  msgType % 256 :: toBE32 (payload.length + 4) ++ payload

/-! ## SQL analyzer records (`internal/parser`, part_007) -/

inductive QueryType where
  | unknown
  | select
  | insert
  | update
  | delete
  | ddl
  | utility
deriving DecidableEq

/-- `parser.TableRef`. -/
structure TableRef where
  Schema : GoStr
  Name : GoStr
  Alias : GoStr
deriving DecidableEq

/-- `TableRef.QualifiedName`. -/
def TableRef.QualifiedName (t : TableRef) : GoStr :=
  if t.Schema ≠ [] then t.Schema ++ '.' :: t.Name else t.Name

/-- `parser.ParsedQuery` (the raw parse tree is not consulted by the
rewriter and is omitted; the Go field `Type` is spelled `Typ` because
`Type` is reserved in Lean). -/
structure ParsedQuery where
  Original : GoStr
  Typ : QueryType
  Tables : List TableRef
  TargetColumns : List GoStr
deriving DecidableEq

/-- `parser.IsTransactionControl` — prefix test on the uppercased, trimmed
text. -/
def isTransactionControl (sql : GoStr) : Bool :=
  let upper := toUpperStr (trimSpace sql)
  List.isPrefixOf "BEGIN".data upper ||
  List.isPrefixOf "COMMIT".data upper ||
  List.isPrefixOf "ROLLBACK".data upper ||
  List.isPrefixOf "SAVEPOINT".data upper ||
  List.isPrefixOf "RELEASE SAVEPOINT".data upper ||
  List.isPrefixOf "START TRANSACTION".data upper ||
  List.isPrefixOf "END".data upper

/-! ## Rewriter (`internal/parser/ddl.go`) -/

/-- `parser.RewriteConfig`. -/
structure RewriteConfig where
  BranchSchema : GoStr
  SourceSchema : GoStr
  PKColumns : List GoStr
deriving DecidableEq

/-- `parser.RewriteResult`. -/
structure RewriteResult where
  SQL : GoStr
  IsPassthrough : Bool
  NeedsOverlay : Bool
  TableName : GoStr
deriving DecidableEq

/-- The config map `map[string]RewriteConfig`, keyed by table name. -/
def lookupConfig (configs : List (GoStr × RewriteConfig)) (name : GoStr) :
    Option RewriteConfig :=
  (configs.find? (fun e => e.1 = name)).map (·.2)

/-- `pgQuoteIdent`: double-quote an identifier, doubling interior quotes. -/
def pgQuoteIdent (ident : GoStr) : GoStr :=
  '"' :: replaceAll ident ['"'] ['"', '"'] ++ ['"']

def quoteIdents (idents : List GoStr) : List GoStr := idents.map pgQuoteIdent

def qualifiedTable (schema table : GoStr) : GoStr :=
  pgQuoteIdent schema ++ '.' :: pgQuoteIdent table

/-- `buildPKJoin(leftAlias, rightAlias, pkColumns)`. -/
def buildPKJoin (leftAlias rightAlias : GoStr) (pkColumns : List GoStr) : GoStr :=
  joinStr " AND ".data
    (pkColumns.map (fun col =>
      leftAlias ++ '.' :: pgQuoteIdent col ++ " = ".data ++
        rightAlias ++ '.' :: pgQuoteIdent col))

/-- `isIdentChar`. -/
def isIdentChar (c : Char) : Bool :=
  (97 ≤ c.toNat && c.toNat ≤ 122) || (65 ≤ c.toNat && c.toNat ≤ 90) ||
  (48 ≤ c.toNat && c.toNat ≤ 57) || c = '_'

/-- One step decision of `replaceWord`'s boundary test at absolute position
`absPos` with match end `endPos`. -/
def wordBoundaryOk (s : GoStr) (absPos endPos : Nat) : Bool :=
  (decide (absPos = 0) || !isIdentChar (s.getD (absPos - 1) ' ')) &&
  (decide (endPos ≥ s.length) || !isIdentChar (s.getD endPos ' '))

/-- Fuelled worker mirroring `replaceWord`'s scan loop (`result`, `idx`). -/
def replaceWordAux (old new : GoStr) : Nat → GoStr → Nat → GoStr
  | 0, result, _ => result
  | fuel + 1, result, idx =>
    match strIndex (result.drop idx) old with
    | none => result
    | some pos =>
      let absPos := idx + pos
      let endPos := absPos + old.length
      if wordBoundaryOk result absPos endPos then
        replaceWordAux old new fuel
          (result.take absPos ++ new ++ result.drop endPos) (absPos + new.length)
      else
        replaceWordAux old new fuel result endPos

/-- `replaceWord(sql, old, new)`: whole-word replacement of every
occurrence. -/
def replaceWord (sql old new : GoStr) : GoStr :=
  replaceWordAux old new (sql.length + 1) sql 0

/-- `replaceTableRef(sql, tbl, newRef)`: schema-qualified references are
replaced as the full `schema.name` (first occurrence, no boundary check);
bare names use word-boundary replacement. -/
def replaceTableRef (sql : GoStr) (tbl : TableRef) (newRef : GoStr) : GoStr :=
  if tbl.Schema ≠ [] then
    replaceFirst sql (tbl.Schema ++ '.' :: tbl.Name) newRef
  else
    replaceWord sql tbl.Name newRef

def trailingKeywords : List GoStr :=
  [" ORDER BY ".data, " LIMIT ".data, " OFFSET ".data,
   " GROUP BY ".data, " HAVING ".data, " RETURNING ".data]

/-- `extractWhereClause`: text after the first `" WHERE "`, cut at trailing
clauses, trimmed, without a trailing semicolon. -/
def extractWhereClause (sql : GoStr) : GoStr :=
  match strIndex (toUpperStr sql) " WHERE ".data with
  | none => []
  | some idx =>
    let clause := sql.drop (idx + 7)
    let clause := trailingKeywords.foldl
      (fun cl kw =>
        match strIndex (toUpperStr cl) kw with
        | none => cl
        | some pos => cl.take pos) clause
    trimRightSemi (trimSpace clause)

/-- `requalifyWhereForAlias`: rewrite `qualifier.` occurrences to the given
alias followed by a dot (original case then lowercase variant). -/
def requalifyWhereForAlias (whereCl aliasName : GoStr) (qualifiers : List GoStr) : GoStr :=
  qualifiers.foldl
    (fun result q =>
      if q = [] then result
      else
        [q, toLowerStr q].foldl
          (fun r variant => replaceAll r (variant ++ ['.']) (aliasName ++ ['.'])) result)
    whereCl

/-- `stripTableQualifiers`: drop `qualifier.` occurrences entirely. -/
def stripTableQualifiers (whereCl : GoStr) (qualifiers : List GoStr) : GoStr :=
  qualifiers.foldl
    (fun result q =>
      if q = [] then result
      else
        [q, toLowerStr q].foldl
          (fun r variant => replaceAll r (variant ++ ['.']) []) result)
    whereCl

/-- The CTE text built for one tracked table in `rewriteSelect`
(the `fmt.Sprintf` template with two-space indents). -/
def selectCTE (mergedName ovrTable srcTable pkJoin : GoStr) : GoStr :=
  pgQuoteIdent mergedName ++ " AS (\n  SELECT * FROM ".data ++ ovrTable ++
  " WHERE NOT _rift_tombstone\n  UNION ALL\n  SELECT src.* FROM ".data ++ srcTable ++
  " src\n  WHERE NOT EXISTS (\n    SELECT 1 FROM ".data ++ ovrTable ++
  " ovr WHERE ".data ++ pkJoin ++ "\n  )\n)".data

/-- Loop body of `rewriteSelect` over `pq.Tables`, threading the rewritten
SQL, accumulated CTEs, and the `hasOverlay` flag. -/
def rewriteSelectLoop (configs : List (GoStr × RewriteConfig)) :
    List TableRef → GoStr → List GoStr → Bool →
    Except GoStr (GoStr × List GoStr × Bool)
  | [], sql, ctes, hasOverlay => .ok (sql, ctes, hasOverlay)
  | tbl :: rest, sql, ctes, hasOverlay =>
    match lookupConfig configs tbl.Name with
    | none => rewriteSelectLoop configs rest sql ctes hasOverlay
    | some cfg =>
      if cfg.PKColumns = [] then
        .error ("table requires a primary key for overlay semantics".data)
      else
        let mergedName := "_rift_merged_".data ++ tbl.Name
        let srcTable := qualifiedTable cfg.SourceSchema tbl.Name
        let ovrTable := qualifiedTable cfg.BranchSchema tbl.Name
        let pkJoin := buildPKJoin "ovr".data "src".data cfg.PKColumns
        let cte := selectCTE mergedName ovrTable srcTable pkJoin
        rewriteSelectLoop configs rest (replaceTableRef sql tbl mergedName)
          (ctes ++ [cte]) true

/-- `rewriteSelect`. -/
def rewriteSelect (pq : ParsedQuery) (configs : List (GoStr × RewriteConfig)) :
    Except GoStr RewriteResult :=
  match pq.Tables with
  | [] => .ok ⟨pq.Original, true, false, []⟩
  | t :: ts =>
    match rewriteSelectLoop configs (t :: ts) pq.Original [] false with
    | .error e => .error e
    | .ok (sql, ctes, hasOverlay) =>
      if !hasOverlay then
        .ok ⟨pq.Original, true, false, []⟩
      else
        .ok ⟨"WITH ".data ++ joinStr ", ".data ctes ++ '\n' :: sql,
          false, true, t.Name⟩

/-- `rewriteInsert`. -/
def rewriteInsert (pq : ParsedQuery) (configs : List (GoStr × RewriteConfig)) :
    Except GoStr RewriteResult :=
  match pq.Tables with
  | [] => .ok ⟨pq.Original, true, false, []⟩
  | tbl :: _ =>
    match lookupConfig configs tbl.Name with
    | none => .ok ⟨pq.Original, true, false, []⟩
    | some cfg =>
      let ovrTable := qualifiedTable cfg.BranchSchema tbl.Name
      let srcRef :=
        if tbl.Schema ≠ [] then qualifiedTable tbl.Schema tbl.Name
        else qualifiedTable cfg.SourceSchema tbl.Name
      let sql := replaceFirst pq.Original srcRef ovrTable
      let sql :=
        if tbl.Schema = [] then
          replaceTableRef sql tbl (cfg.BranchSchema ++ '.' :: tbl.Name)
        else sql
      if cfg.PKColumns ≠ [] then
        let pkList := joinStr ", ".data (quoteIdents cfg.PKColumns)
        let setClauses :=
          (pq.TargetColumns.map (fun col =>
            pgQuoteIdent col ++ " = EXCLUDED.".data ++ pgQuoteIdent col)) ++
          ["_rift_tombstone = false".data]
        let sql := trimRightSemi (trimSpace sql)
        .ok ⟨sql ++ "\nON CONFLICT (".data ++ pkList ++
            ") DO UPDATE SET ".data ++ joinStr ", ".data setClauses,
          false, true, tbl.Name⟩
      else
        .ok ⟨sql, false, true, tbl.Name⟩

/-- The copy-on-write INSERT emitted as step 1 of UPDATE/DELETE rewrites. -/
def copyInSQL (ovrTable srcTable pkJoin : GoStr) : GoStr :=
  "INSERT INTO ".data ++ ovrTable ++
  " SELECT src.*, false AS _rift_tombstone FROM ".data ++ srcTable ++
  " src WHERE NOT EXISTS (SELECT 1 FROM ".data ++ ovrTable ++
  " ovr WHERE ".data ++ pkJoin ++ [')']

/-- `rewriteUpdate`. -/
def rewriteUpdate (pq : ParsedQuery) (configs : List (GoStr × RewriteConfig)) :
    Except GoStr RewriteResult :=
  match pq.Tables with
  | [] => .ok ⟨pq.Original, true, false, []⟩
  | tbl :: _ =>
    match lookupConfig configs tbl.Name with
    | none => .ok ⟨pq.Original, true, false, []⟩
    | some cfg =>
      if cfg.PKColumns = [] then
        .error ("table requires a primary key for overlay semantics".data)
      else
        let ovrTable := qualifiedTable cfg.BranchSchema tbl.Name
        let srcTable := qualifiedTable cfg.SourceSchema tbl.Name
        let pkJoin := buildPKJoin "ovr".data "src".data cfg.PKColumns
        let copySQL := copyInSQL ovrTable srcTable pkJoin
        let whereClause := extractWhereClause pq.Original
        let qualifiers := [tbl.Name, tbl.Alias, tbl.QualifiedName]
        let copySQL :=
          if whereClause ≠ [] then
            copySQL ++ " AND (".data ++
              requalifyWhereForAlias whereClause "src".data qualifiers ++ [')']
          else copySQL
        let updateSQL := replaceTableRef pq.Original tbl (cfg.BranchSchema ++ '.' :: tbl.Name)
        .ok ⟨copySQL ++ ";\n".data ++ updateSQL, false, true, tbl.Name⟩

/-- `rewriteDelete`. -/
def rewriteDelete (pq : ParsedQuery) (configs : List (GoStr × RewriteConfig)) :
    Except GoStr RewriteResult :=
  match pq.Tables with
  | [] => .ok ⟨pq.Original, true, false, []⟩
  | tbl :: _ =>
    match lookupConfig configs tbl.Name with
    | none => .ok ⟨pq.Original, true, false, []⟩
    | some cfg =>
      if cfg.PKColumns = [] then
        .error ("table requires a primary key for overlay semantics".data)
      else
        let ovrTable := qualifiedTable cfg.BranchSchema tbl.Name
        let srcTable := qualifiedTable cfg.SourceSchema tbl.Name
        let pkJoin := buildPKJoin "ovr".data "src".data cfg.PKColumns
        let copySQL := copyInSQL ovrTable srcTable pkJoin
        let whereClause := extractWhereClause pq.Original
        let qualifiers := [tbl.Name, tbl.Alias, tbl.QualifiedName]
        let copySQL :=
          if whereClause ≠ [] then
            copySQL ++ " AND (".data ++
              requalifyWhereForAlias whereClause "src".data qualifiers ++ [')']
          else copySQL
        let tombstoneSQL := "UPDATE ".data ++ ovrTable ++ " SET _rift_tombstone = true".data
        let tombstoneSQL :=
          if whereClause ≠ [] then
            tombstoneSQL ++ " WHERE ".data ++ stripTableQualifiers whereClause qualifiers
          else tombstoneSQL
        .ok ⟨copySQL ++ ";\n".data ++ tombstoneSQL, false, true, tbl.Name⟩

/-- `rewriteDDL`. -/
def rewriteDDL (pq : ParsedQuery) (configs : List (GoStr × RewriteConfig)) :
    Except GoStr RewriteResult :=
  match pq.Tables with
  | [] => .ok ⟨pq.Original, true, false, []⟩
  | tbl :: _ =>
    let cfg :=
      match lookupConfig configs tbl.Name with
      | some c => some c
      | none => Option.map Prod.snd configs.head?
    match cfg with
    | none => .ok ⟨pq.Original, true, false, []⟩
    | some c =>
      if c.BranchSchema = [] ∧ lookupConfig configs tbl.Name = none then
        .ok ⟨pq.Original, true, false, []⟩
      else
        .ok ⟨replaceTableRef pq.Original tbl (c.BranchSchema ++ '.' :: tbl.Name),
          false, true, tbl.Name⟩

/-- `RewriteForBranch`: dispatch on statement kind. -/
def rewriteForBranch (pq : ParsedQuery) (configs : List (GoStr × RewriteConfig)) :
    Except GoStr RewriteResult :=
  match pq.Typ with
  | .select => rewriteSelect pq configs
  | .insert => rewriteInsert pq configs
  | .update => rewriteUpdate pq configs
  | .delete => rewriteDelete pq configs
  | .ddl => rewriteDDL pq configs
  | _ => .ok ⟨pq.Original, true, false, []⟩

/-! ## Statement splitting (`internal/router`, part_009) -/

/-- Worker for `splitStatements`, threading the quote state and the current
fragment (in reverse). -/
def splitStatementsAux : GoStr → Bool → Bool → GoStr → List GoStr → List GoStr
  | [], _, _, current, stmts =>
    let s := trimSpace current.reverse
    if s ≠ [] then stmts ++ [s] else stmts
  | c :: rest, inSingle, inDouble, current, stmts =>
    let quoteSt :=
      if c = '\'' ∧ ¬ inDouble then (!inSingle, inDouble)
      else if c = '"' ∧ ¬ inSingle then (inSingle, !inDouble)
      else (inSingle, inDouble)
    if c = ';' ∧ ¬ quoteSt.1 ∧ ¬ quoteSt.2 then
      let s := trimSpace current.reverse
      splitStatementsAux rest quoteSt.1 quoteSt.2 []
        (if s ≠ [] then stmts ++ [s] else stmts)
    else
      splitStatementsAux rest quoteSt.1 quoteSt.2 (c :: current) stmts

/-- `splitStatements`: split on semicolons outside single or double
quotes, trimming and dropping empty fragments. -/
def splitStatements (sql : GoStr) : List GoStr :=
  splitStatementsAux sql false false [] []

/-! ## Session transaction handlers (`internal/router`, part_009 and
`internal/router/extended.go`) -/

/-- Backend messages a handler can emit (the payload constructors the BEGIN
handlers can reach). -/
inductive WireMsg where
  | commandComplete (tag : GoStr)
  | readyForQuery (txStatus : Char)
  | errorResponse (severity code message : GoStr)
  | noticeResponse (severity code message : GoStr)
deriving DecidableEq

def WireMsg.isNotice : WireMsg → Bool
  | .noticeResponse _ _ _ => true
  | _ => false

def TxStatusIdle : Char := 'I'
def TxStatusInTx : Char := 'T'
def TxStatusFailed : Char := 'E'

/-- Session transaction state: `tx ≠ none` models `s.tx != nil` (the held
transaction handle, identified by an abstract id), plus the reported
status byte and the deferred extended-protocol error. -/
structure SessionSt where
  tx : Option Nat
  txStatus : Char
  extErr : Option GoStr
deriving DecidableEq

def ErrCodeInternalError : GoStr := "XX000".data

/-- `sendQueryError`: ErrorResponse followed by ReadyForQuery. -/
def sendQueryErrorMsgs (s : SessionSt) (msg : GoStr) : List WireMsg :=
  [.errorResponse "ERROR".data ErrCodeInternalError msg,
   .readyForQuery s.txStatus]

/-- `Session.handleBegin` (simple query path).  `poolBegin` is the oracle
for `s.pool.Begin(ctx)`: `ok id` yields a fresh transaction handle,
`error` the begin failure. -/
def handleBegin (poolBegin : Except GoStr Nat) (s : SessionSt) :
    SessionSt × List WireMsg :=
  match s.tx with
  | some _ =>
    (s, [.commandComplete "BEGIN".data, .readyForQuery s.txStatus])
  | none =>
    match poolBegin with
    | .error e => (s, sendQueryErrorMsgs s e)
    | .ok id =>
      let s := { s with tx := some id, txStatus := TxStatusInTx }
      (s, [.commandComplete "BEGIN".data, .readyForQuery s.txStatus])

/-- `Session.handleExtBegin` (extended protocol; no ReadyForQuery — Sync
sends it; a begin failure is deferred in `extErr`). -/
def handleExtBegin (poolBegin : Except GoStr Nat) (s : SessionSt) :
    SessionSt × List WireMsg :=
  match s.tx with
  | some _ => (s, [.commandComplete "BEGIN".data])
  | none =>
    match poolBegin with
    | .error e => ({ s with extErr := some e }, [])
    | .ok id =>
      ({ s with tx := some id, txStatus := TxStatusInTx },
       [.commandComplete "BEGIN".data])

/-! ## Branch metadata store (`internal/storage`, part_006) -/

/-- ASCII single-char table of `strings.NewReplacer("-", "_", ".", "_",
"/", "_")`. -/
def goReplacerChar (c : Char) : Char :=
  if c = '-' ∨ c = '.' ∨ c = '/' then '_' else c

/-- `sanitizeBranchName`: replace `-`/`.`/`/` with `_`, then lowercase. -/
def sanitizeBranchName (name : GoStr) : GoStr :=
  toLowerStr (name.map goReplacerChar)

/-- `PgStore.BranchSchemaName`. -/
def branchSchemaName (name : GoStr) : GoStr :=
  "_rift_branch_".data ++ sanitizeBranchName name

/-- One char of the branch-name regexp's leading class `[a-zA-Z0-9]`. -/
def isAlnumChar (c : Char) : Bool :=
  (97 ≤ c.toNat && c.toNat ≤ 122) || (65 ≤ c.toNat && c.toNat ≤ 90) ||
  (48 ≤ c.toNat && c.toNat ≤ 57)

/-- `branchNameRe = ^[a-zA-Z0-9][a-zA-Z0-9_-]*$`. -/
def branchNameMatches : GoStr → Bool
  | [] => false
  | c :: rest => isAlnumChar c && rest.all (fun d => isAlnumChar d || d = '_' || d = '-')

/-- `storage.ValidateBranchName`: `none` means valid, `some err` the
rejection message. -/
def validateBranchName (name : GoStr) : Option GoStr :=
  if name = [] then some ("branch name cannot be empty".data)
  else if name.length > 63 then some ("branch name too long (max 63 characters)".data)
  else if ¬ branchNameMatches name then
    some ("branch name must contain only alphanumeric characters, hyphens, and underscores".data)
  else none

/-- The slice of `storage.Branch` consulted by `Engine.DeleteBranch`. -/
structure StoreBranch where
  Name : GoStr
  Parent : GoStr
  Pinned : Bool
deriving DecidableEq

/-- Metadata-store state touched by `Engine.DeleteBranch`: the
`_rift.branches` rows and the set of existing overlay schemas. -/
structure StoreSt where
  branches : List StoreBranch
  schemas : List GoStr
deriving DecidableEq

/-- `store.GetBranch` (returns the row or a not-found error). -/
def storeGetBranch (st : StoreSt) (name : GoStr) : Option StoreBranch :=
  st.branches.find? (fun b => b.Name = name)

/-- `Engine.DeleteBranch`: error (state unchanged) on a missing, pinned,
or child-bearing branch; otherwise drop the overlay schema and the
metadata row.  Result is `(error?, new state)`. -/
def engineDeleteBranch (st : StoreSt) (name : GoStr) : Option GoStr × StoreSt :=
  match storeGetBranch st name with
  | none => (some ("get branch: not found".data), st)
  | some branch =>
    if branch.Pinned then
      (some ("cannot delete pinned branch".data), st)
    else
      match st.branches.find? (fun b => b.Parent = name) with
      | some _ => (some ("cannot delete branch: has child branch".data), st)
      | none =>
        (none,
         ⟨st.branches.filter (fun b => b.Name ≠ name),
          st.schemas.filter (fun s => s ≠ branchSchemaName name)⟩)

/-! ## File-based branch manager (`internal/branch`, part_005) -/

/-- The slice of `branch.Branch` consulted by `Manager.GC` (durations and
times in abstract ticks). -/
structure MBranch where
  Name : GoStr
  Parent : GoStr
  Pinned : Bool
  TTL : Option Nat
  CreatedAt : Nat
deriving DecidableEq

/-- The per-branch test inside `Manager.GC`'s loop: a TTL is set, the
branch is not pinned, and `now.After(CreatedAt + TTL)`. -/
def gcExpired (now : Nat) (b : MBranch) : Bool :=
  match b.TTL with
  | none => false
  | some ttl => !b.Pinned && decide (b.CreatedAt + ttl < now)

/-- `Manager.GC`: delete every expired branch from the map and return the
deleted names.  Children are not consulted. -/
def managerGC (now : Nat) (branches : List MBranch) :
    List GoStr × List MBranch :=
  ((branches.filter (gcExpired now)).map (fun b => b.Name),
   branches.filter (fun b => ¬ gcExpired now b))

/-! ## Migrations (`internal/storage/migrate.go`) -/

/-- A directory entry as returned by `migrationFS.ReadDir`. -/
structure DirEntry where
  name : GoStr
  isDir : Bool
deriving DecidableEq

def insertByName (e : DirEntry) : List DirEntry → List DirEntry
  | [] => [e]
  | f :: rest =>
    if goStrLt e.name f.name then e :: f :: rest else f :: insertByName e rest

/-- The `sort.Slice` on entry names (insertion sort; the comparator is the
byte-wise `<` on names). -/
def sortByName : List DirEntry → List DirEntry
  | [] => []
  | e :: rest => insertByName e (sortByName rest)

def parseDigitsAux : GoStr → Nat → Option Nat
  | [], acc => some acc
  | c :: rest, acc =>
    if 48 ≤ c.toNat ∧ c.toNat ≤ 57 then parseDigitsAux rest (acc * 10 + (c.toNat - 48))
    else none

def parseDigits : GoStr → Option Nat
  | [] => none
  | c :: rest => parseDigitsAux (c :: rest) 0

/-- Go `strconv.Atoi` restricted to the widths reached here (no overflow
modelling; Go would error where this errors). -/
def goAtoi : GoStr → Option Int
  | [] => none
  | c :: rest =>
    if c = '+' then (parseDigits rest).map (fun n => (n : Int))
    else if c = '-' then (parseDigits rest).map (fun n => -(n : Int))
    else (parseDigits (c :: rest)).map (fun n => (n : Int))

/-- `parseMigrationVersion`: `strconv.Atoi` of the text before the first
underscore (`strings.SplitN(name, "_", 2)[0]`). -/
def parseMigrationVersion (filename : GoStr) : Option Int :=
  goAtoi (filename.takeWhile (fun c => c ≠ '_'))

/-- The loop of `runMigrations` over the sorted entries: skip directories
and non-`.sql` files, skip versions already recorded in
`_rift.schema_version` (`isMigrationApplied`), otherwise apply and record.
Returns the `(version, filename)` pairs applied, in order. -/
def runMigrationsLoop : List DirEntry → List Int → Except GoStr (List (Int × GoStr))
  | [], _ => .ok []
  | e :: rest, applied =>
    if e.isDir ∨ ¬ hasSuffix e.name ".sql".data then
      runMigrationsLoop rest applied
    else
      match parseMigrationVersion e.name with
      | none => .error ("parsing migration filename".data)
      | some v =>
        if v ∈ applied then runMigrationsLoop rest applied
        else
          match runMigrationsLoop rest (v :: applied) with
          | .error e => .error e
          | .ok tail => .ok ((v, e.name) :: tail)

/-- `runMigrations`: sort the directory entries by name, then apply the
pending ones in order.  `applied` is the set of versions already in
`_rift.schema_version`. -/
def runMigrations (entries : List DirEntry) (applied : List Int) :
    Except GoStr (List (Int × GoStr)) :=
  runMigrationsLoop (sortByName entries) applied

def isDigitChar (c : Char) : Bool := 48 ≤ c.toNat && c.toNat ≤ 57

/-- The `NNN_*.sql` naming convention: a three-digit numeric prefix, an
underscore, and a `.sql` suffix. -/
def isNNNSql : GoStr → Bool
  | d1 :: d2 :: d3 :: u :: rest =>
    isDigitChar d1 && isDigitChar d2 && isDigitChar d3 && decide (u = '_') &&
      hasSuffix rest ".sql".data
  | _ => false

/-- Numeric value of three digit characters. -/
def digitsVal (c1 c2 c3 : Char) : Nat :=
  ((c1.toNat - 48) * 10 + (c2.toNat - 48)) * 10 + (c3.toNat - 48)

/-- The integer prefix of an `NNN_*.sql` name (0 on other shapes). -/
def verNNN : GoStr → Nat
  | d1 :: d2 :: d3 :: _ => digitsVal d1 d2 d3
  | _ => 0

/-! ## CoW engine (`internal/cow/engine.go`) -/

/-- `cow.ProcessedQuery`. -/
structure ProcessedQuery where
  OriginalSQL : GoStr
  RewrittenSQL : GoStr
  Typ : QueryType
  NeedsOverlay : Bool
  IsPassthrough : Bool
  TableName : GoStr
deriving DecidableEq

/-- The engine's effectful collaborators (the pg_query parser and the
store-backed config/overlay steps), abstracted as oracles. -/
structure EngineEnv where
  parse : GoStr → Except GoStr ParsedQuery
  buildRewriteConfigs : GoStr → ParsedQuery → Except GoStr (List (GoStr × RewriteConfig))
  ensureOverlays : GoStr → ParsedQuery → Except GoStr Unit

def ParsedQuery.IsWrite (p : ParsedQuery) : Bool :=
  p.Typ = .insert || p.Typ = .update || p.Typ = .delete

def ParsedQuery.IsDDL (p : ParsedQuery) : Bool := p.Typ = .ddl

def ParsedQuery.IsUtility (p : ParsedQuery) : Bool := p.Typ = .utility

/-- `Engine.ProcessQuery`: main-branch passthrough, transaction-control
passthrough, parse, utility passthrough, config building (with overlay
creation and config rebuild for writes/DDL), then the rewriter. -/
def processQuery (env : EngineEnv) (branchName sql : GoStr) :
    Except GoStr ProcessedQuery :=
  if branchName = "main".data then
    .ok ⟨sql, sql, .unknown, false, true, []⟩
  else if isTransactionControl sql then
    .ok ⟨sql, sql, .utility, false, true, []⟩
  else
    match env.parse sql with
    | .error e => .error e
    | .ok pq =>
      if pq.IsUtility then
        .ok ⟨sql, sql, pq.Typ, false, true, []⟩
      else
        match env.buildRewriteConfigs branchName pq with
        | .error e => .error e
        | .ok configs =>
          let next : Except GoStr (List (GoStr × RewriteConfig)) :=
            if pq.IsWrite ∨ pq.IsDDL then
              match env.ensureOverlays branchName pq with
              | .error e => .error e
              | .ok _ => env.buildRewriteConfigs branchName pq
            else .ok configs
          match next with
          | .error e => .error e
          | .ok configs =>
            match rewriteForBranch pq configs with
            | .error e => .error e
            | .ok result =>
              .ok ⟨sql, result.SQL, pq.Typ, result.NeedsOverlay,
                   result.IsPassthrough, result.TableName⟩

/-! ## Concrete fixtures used by the theorems -/

/-- Parse result of `SELECT * FROM users WHERE id = 1`. -/
def pqSelUsers : ParsedQuery :=
  ⟨"SELECT * FROM users WHERE id = 1".data, .select, [⟨[], "users".data, []⟩], []⟩

/-- Parse result of `DELETE FROM users WHERE id = 1`. -/
def pqDelUsers : ParsedQuery :=
  ⟨"DELETE FROM users WHERE id = 1".data, .delete, [⟨[], "users".data, []⟩], []⟩

/-- Parse result of `INSERT INTO users (name) VALUES ('Charlie')`. -/
def pqInsUsers : ParsedQuery :=
  ⟨"INSERT INTO users (name) VALUES ('Charlie')".data, .insert,
   [⟨[], "users".data, []⟩], ["name".data]⟩

/-- Rewrite config map for the tracked `users` table:
`{BranchSchema=_rift_branch_dev, SourceSchema=public, PKColumns=[id]}`. -/
def cfgUsers : List (GoStr × RewriteConfig) :=
  [("users".data, ⟨"_rift_branch_dev".data, "public".data, ["id".data]⟩)]

/-- The SELECT rewrite output for `pqSelUsers` under `cfgUsers`. -/
def c4SQL : GoStr :=
  ("WITH \"_rift_merged_users\" AS (\n  SELECT * FROM \"_rift_branch_dev\".\"users\" WHERE NOT _rift_tombstone\n  UNION ALL\n  SELECT src.* FROM \"public\".\"users\" src\n  WHERE NOT EXISTS (\n    SELECT 1 FROM \"_rift_branch_dev\".\"users\" ovr WHERE ovr.\"id\" = src.\"id\"\n  )\n)\nSELECT * FROM _rift_merged_users WHERE id = 1").data

/-- The copy-in statement the DELETE rewrite emits first. -/
def c5CopySQL : GoStr :=
  ("INSERT INTO \"_rift_branch_dev\".\"users\" SELECT src.*, false AS _rift_tombstone FROM \"public\".\"users\" src WHERE NOT EXISTS (SELECT 1 FROM \"_rift_branch_dev\".\"users\" ovr WHERE ovr.\"id\" = src.\"id\") AND (id = 1)").data

/-- The tombstoning statement the DELETE rewrite emits second. -/
def c5TombSQL : GoStr :=
  ("UPDATE \"_rift_branch_dev\".\"users\" SET _rift_tombstone = true WHERE id = 1").data

/-- Substring test via `strIndex`. -/
def containsSub (s sub : GoStr) : Bool := (strIndex s sub).isSome

/-- The table-redirection steps of `rewriteInsert` (replace the qualified
source reference once, then — for unqualified targets — replace the bare
name at word boundaries with `branch_schema.table`). -/
def insertRedirect (pq : ParsedQuery) (tbl : TableRef) (cfg : RewriteConfig) : GoStr :=
  let ovrTable := qualifiedTable cfg.BranchSchema tbl.Name
  let srcRef :=
    if tbl.Schema ≠ [] then qualifiedTable tbl.Schema tbl.Name
    else qualifiedTable cfg.SourceSchema tbl.Name
  let sql := replaceFirst pq.Original srcRef ovrTable
  if tbl.Schema = [] then replaceTableRef sql tbl (cfg.BranchSchema ++ '.' :: tbl.Name)
  else sql

/-- Written from the claim's words (for comparison with the code's
output): `ON CONFLICT (k1,…,kn) DO UPDATE SET c1 = EXCLUDED.c1, …,
cm = EXCLUDED.cm, _rift_tombstone = false`. -/
def onConflictClauseSpec (pkColumns targetColumns : List GoStr) : GoStr :=
  "\nON CONFLICT (".data ++ joinStr ", ".data (quoteIdents pkColumns) ++
  ") DO UPDATE SET ".data ++
  joinStr ", ".data
    (targetColumns.map (fun c => pgQuoteIdent c ++ " = EXCLUDED.".data ++ pgQuoteIdent c)) ++
  ", _rift_tombstone = false".data

instance {ε α : Type} [DecidableEq ε] [DecidableEq α] : DecidableEq (Except ε α)
  | .error a, .error b =>
    if h : a = b then .isTrue (by rw [h])
    else .isFalse (by intro hc; cases hc; exact h rfl)
  | .error _, .ok _ => .isFalse (by intro h; cases h)
  | .ok _, .error _ => .isFalse (by intro h; cases h)
  | .ok a, .ok b =>
    if h : a = b then .isTrue (by rw [h])
    else .isFalse (by intro hc; cases hc; exact h rfl)

end Rift

namespace Rift

set_option maxRecDepth 100000

/-! ## Helper lemmas -/

theorem charToNat_ofNat (n : Nat) (h : n.isValidChar) : (Char.ofNat n).toNat = n := by
  have h32 : n < 2 ^ 32 := by
    rcases h with h | h
    · omega
    · omega
  simp [Char.ofNat, h, Char.ofNatAux, Char.toNat, UInt32.toNat, BitVec.toNat_ofNat,
    Nat.mod_eq_of_lt h32]

theorem char_toNat_inj {a b : Char} (h : a.toNat = b.toNat) : a = b := by
  apply Char.eq_of_val_eq
  apply UInt32.eq_of_toBitVec_eq
  apply BitVec.eq_of_toNat_eq
  exact h

/-- Lowercasing and the `-`/`.`//` → `_` replacement commute. -/
theorem lower_replacer_comm (c : Char) :
    toLowerChar (goReplacerChar c) = goReplacerChar (toLowerChar c) := by
  by_cases hc : c = '-' ∨ c = '.' ∨ c = '/'
  · rcases hc with h | h | h <;> subst h <;> decide
  · have hrep : goReplacerChar c = c := by
      unfold goReplacerChar
      exact if_neg hc
    rw [hrep]
    unfold toLowerChar
    by_cases hr : 65 ≤ c.toNat ∧ c.toNat ≤ 90
    · rw [if_pos hr]
      have hv : (c.toNat + 32).isValidChar := by
        left
        have := hr.2
        omega
      have ht : (Char.ofNat (c.toNat + 32)).toNat = c.toNat + 32 :=
        charToNat_ofNat _ hv
      have hno : goReplacerChar (Char.ofNat (c.toNat + 32)) = Char.ofNat (c.toNat + 32) := by
        unfold goReplacerChar
        apply if_neg
        intro hbad
        have h1 := hr.1
        rcases hbad with h | h | h
        · have h2 := congrArg Char.toNat h
          rw [ht] at h2
          have h3 : ('-').toNat = 45 := by decide
          rw [h3] at h2
          omega
        · have h2 := congrArg Char.toNat h
          rw [ht] at h2
          have h3 : ('.').toNat = 46 := by decide
          rw [h3] at h2
          omega
        · have h2 := congrArg Char.toNat h
          rw [ht] at h2
          have h3 : ('/').toNat = 47 := by decide
          rw [h3] at h2
          omega
      rw [hno]
    · rw [if_neg hr, hrep]

theorem joinStr_append_singleton (sep x : GoStr) :
    ∀ xs : List GoStr, xs ≠ [] →
      joinStr sep (xs ++ [x]) = joinStr sep xs ++ sep ++ x
  | [], h => absurd rfl h
  | [y], _ => by simp [joinStr]
  | y :: z :: rest, _ => by
    have ih := joinStr_append_singleton sep x (z :: rest) (by simp)
    simp only [List.cons_append] at ih ⊢
    rw [joinStr, joinStr, ih]
    simp [List.append_assoc]

theorem length_toBE32 (n : Nat) : (toBE32 n).length = 4 := by
  simp [toBE32]

theorem fromBE32_toBE32 (n : Nat) (h : n < 2 ^ 32) (p : List Nat) :
    fromBE32 (toBE32 n ++ p) = n := by
  simp only [toBE32, fromBE32, List.cons_append]
  omega

/-- `gcExpired` unfolded to its logical form. -/
theorem gcExpired_iff (now : Nat) (b : MBranch) :
    gcExpired now b = true ↔
      ∃ t, b.TTL = some t ∧ b.Pinned = false ∧ b.CreatedAt + t < now := by
  unfold gcExpired
  cases h : b.TTL with
  | none => simp
  | some t => simp [Bool.and_eq_true, Bool.not_eq_true']

theorem mem_insertByName (x e : DirEntry) :
    ∀ l : List DirEntry, x ∈ insertByName e l ↔ x = e ∨ x ∈ l
  | [] => by simp [insertByName]
  | f :: rest => by
    unfold insertByName
    by_cases h : goStrLt e.name f.name = true
    · simp [h]
    · have ih := mem_insertByName x e rest
      simp only [if_neg h, List.mem_cons, ih]
      tauto

theorem mem_sortByName (x : DirEntry) :
    ∀ l : List DirEntry, x ∈ sortByName l ↔ x ∈ l
  | [] => Iff.rfl
  | e :: rest => by
    unfold sortByName
    rw [mem_insertByName, mem_sortByName x rest]
    simp

/-- Byte-wise lexicographic comparison of two strings with three-digit
prefixes respects the numeric prefix value. -/
theorem digitsVal_mono (a1 a2 a3 b1 b2 b3 : Char) (ra rb : GoStr)
    (ha1 : isDigitChar a1 = true) (ha2 : isDigitChar a2 = true)
    (ha3 : isDigitChar a3 = true) (hb1 : isDigitChar b1 = true)
    (hb2 : isDigitChar b2 = true) (hb3 : isDigitChar b3 = true) :
    (goStrLt (a1 :: a2 :: a3 :: ra) (b1 :: b2 :: b3 :: rb) = true →
      digitsVal a1 a2 a3 ≤ digitsVal b1 b2 b3)
    ∧ (goStrLt (a1 :: a2 :: a3 :: ra) (b1 :: b2 :: b3 :: rb) = false →
      digitsVal b1 b2 b3 ≤ digitsVal a1 a2 a3) := by
  simp only [isDigitChar, Bool.and_eq_true, decide_eq_true_eq] at ha1 ha2 ha3 hb1 hb2 hb3
  unfold digitsVal
  by_cases h1 : a1.toNat < b1.toNat
  · exact ⟨fun _ => by omega, fun hf => by simp [goStrLt, h1] at hf⟩
  by_cases h1' : b1.toNat < a1.toNat
  · exact ⟨fun ht => by simp [goStrLt, h1, h1'] at ht, fun _ => by omega⟩
  by_cases h2 : a2.toNat < b2.toNat
  · exact ⟨fun _ => by omega, fun hf => by simp [goStrLt, h1, h1', h2] at hf⟩
  by_cases h2' : b2.toNat < a2.toNat
  · exact ⟨fun ht => by simp [goStrLt, h1, h1', h2, h2'] at ht, fun _ => by omega⟩
  by_cases h3 : a3.toNat < b3.toNat
  · exact ⟨fun _ => by omega, fun hf => by simp [goStrLt, h1, h1', h2, h2', h3] at hf⟩
  by_cases h3' : b3.toNat < a3.toNat
  · exact ⟨fun ht => by simp [goStrLt, h1, h1', h2, h2', h3, h3'] at ht, fun _ => by omega⟩
  exact ⟨fun _ => by omega, fun _ => by omega⟩

theorem isNNNSql_shape {a : GoStr} (h : isNNNSql a = true) :
    ∃ d1 d2 d3 rest, a = d1 :: d2 :: d3 :: '_' :: rest ∧
      isDigitChar d1 = true ∧ isDigitChar d2 = true ∧ isDigitChar d3 = true ∧
      hasSuffix rest ".sql".data = true := by
  cases a with
  | nil => simp [isNNNSql] at h
  | cons d1 t1 =>
    cases t1 with
    | nil => simp [isNNNSql] at h
    | cons d2 t2 =>
      cases t2 with
      | nil => simp [isNNNSql] at h
      | cons d3 t3 =>
        cases t3 with
        | nil => simp [isNNNSql] at h
        | cons u rest =>
          simp only [isNNNSql, Bool.and_eq_true, decide_eq_true_eq] at h
          obtain ⟨⟨⟨⟨h1, h2⟩, h3⟩, hu⟩, hs⟩ := h
          subst hu
          exact ⟨d1, d2, d3, rest, rfl, h1, h2, h3, hs⟩

theorem isNNNSql_suffix {a : GoStr} (h : isNNNSql a = true) :
    hasSuffix a ".sql".data = true := by
  obtain ⟨d1, d2, d3, rest, rfl, _, _, _, hs⟩ := isNNNSql_shape h
  unfold hasSuffix at hs ⊢
  rw [List.isSuffixOf_iff_suffix] at hs ⊢
  exact hs.trans ⟨[d1, d2, d3, '_'], rfl⟩

theorem parseMigrationVersion_NNN {a : GoStr} (h : isNNNSql a = true) :
    parseMigrationVersion a = some ((verNNN a : Nat) : Int) := by
  obtain ⟨d1, d2, d3, rest, rfl, h1, h2, h3, _⟩ := isNNNSql_shape h
  simp only [isDigitChar, Bool.and_eq_true, decide_eq_true_eq] at h1 h2 h3
  have hne1 : ¬ d1 = '_' := by
    intro he
    subst he
    revert h1
    decide
  have hne2 : ¬ d2 = '_' := by
    intro he
    subst he
    revert h2
    decide
  have hne3 : ¬ d3 = '_' := by
    intro he
    subst he
    revert h3
    decide
  have hplus : ¬ d1 = '+' := by
    intro he
    subst he
    revert h1
    decide
  have hminus : ¬ d1 = '-' := by
    intro he
    subst he
    revert h1
    decide
  unfold parseMigrationVersion
  have ht : (d1 :: d2 :: d3 :: '_' :: rest).takeWhile (fun c => c ≠ '_') = [d1, d2, d3] := by
    simp [List.takeWhile_cons, hne1, hne2, hne3]
  rw [ht]
  simp only [goAtoi, if_neg hplus, if_neg hminus]
  simp only [parseDigits, parseDigitsAux, if_pos h1, if_pos h2, if_pos h3]
  simp [verNNN, digitsVal]

theorem pairwise_insertByName (e : DirEntry) :
    ∀ l : List DirEntry,
      isNNNSql e.name = true →
      (∀ x ∈ l, isNNNSql x.name = true) →
      l.Pairwise (fun x y => verNNN x.name ≤ verNNN y.name) →
      (insertByName e l).Pairwise (fun x y => verNNN x.name ≤ verNNN y.name)
  | [], _, _, _ => by simp [insertByName]
  | f :: rest, he, hl, hp => by
    unfold insertByName
    have hf := hl f (by simp)
    obtain ⟨a1, a2, a3, ra, hea, ha1, ha2, ha3, _⟩ := isNNNSql_shape he
    obtain ⟨b1, b2, b3, rb, hfb, hb1, hb2, hb3, _⟩ := isNNNSql_shape hf
    rw [List.pairwise_cons] at hp
    obtain ⟨hfr, hrp⟩ := hp
    by_cases h : goStrLt e.name f.name = true
    · rw [if_pos h]
      have hef : verNNN e.name ≤ verNNN f.name := by
        rw [hea, hfb] at h ⊢
        exact (digitsVal_mono a1 a2 a3 b1 b2 b3 _ _ ha1 ha2 ha3 hb1 hb2 hb3).1 h
      rw [List.pairwise_cons]
      refine ⟨?_, List.pairwise_cons.mpr ⟨hfr, hrp⟩⟩
      intro y hy
      rcases List.mem_cons.mp hy with rfl | hy'
      · exact hef
      · exact le_trans hef (hfr y hy')
    · rw [if_neg h]
      have h' : goStrLt e.name f.name = false := by
        revert h
        cases goStrLt e.name f.name <;> simp
      have hfe : verNNN f.name ≤ verNNN e.name := by
        rw [hea, hfb] at h' ⊢
        exact (digitsVal_mono a1 a2 a3 b1 b2 b3 _ _ ha1 ha2 ha3 hb1 hb2 hb3).2 h'
      rw [List.pairwise_cons]
      refine ⟨?_, pairwise_insertByName e rest he
        (fun x hx => hl x (List.mem_cons_of_mem f hx)) hrp⟩
      intro y hy
      rcases (mem_insertByName y e rest).mp hy with rfl | hy'
      · exact hfe
      · exact hfr y hy'

theorem pairwise_sortByName :
    ∀ l : List DirEntry, (∀ x ∈ l, isNNNSql x.name = true) →
      (sortByName l).Pairwise (fun x y => verNNN x.name ≤ verNNN y.name)
  | [], _ => List.Pairwise.nil
  | e :: rest, hl => by
    unfold sortByName
    exact pairwise_insertByName e (sortByName rest) (hl e (by simp))
      (fun x hx => hl x (List.mem_cons_of_mem e ((mem_sortByName x rest).mp hx)))
      (pairwise_sortByName rest (fun x hx => hl x (List.mem_cons_of_mem e hx)))

/-- The `runMigrations` loop over a version-sorted entry list: it
succeeds, the applied versions are strictly increasing, versions already
recorded are skipped, every applied pair comes from an entry, and every
pending entry's version gets applied. -/
theorem runMigrationsLoop_spec :
    ∀ (es : List DirEntry) (applied : List Int),
      (∀ e ∈ es, e.isDir = false ∧ isNNNSql e.name = true) →
      es.Pairwise (fun x y => verNNN x.name ≤ verNNN y.name) →
      ∃ out, runMigrationsLoop es applied = .ok out ∧
        out.Pairwise (fun x y => x.1 < y.1) ∧
        (∀ x ∈ out, x.1 ∉ applied) ∧
        (∀ x ∈ out, ∃ e ∈ es, e.name = x.2 ∧ x.1 = ((verNNN e.name : Nat) : Int)) ∧
        (∀ e ∈ es, ((verNNN e.name : Nat) : Int) ∉ applied →
          ∃ n, (((verNNN e.name : Nat) : Int), n) ∈ out)
  | [], applied, _, _ => ⟨[], rfl, List.Pairwise.nil, by simp, by simp, by simp⟩
  | e :: rest, applied, hv, hp => by
    have hve := hv e (by simp)
    have hsuf := isNNNSql_suffix hve.2
    have hver := parseMigrationVersion_NNN hve.2
    rw [List.pairwise_cons] at hp
    obtain ⟨hef, hrp⟩ := hp
    have hvrest : ∀ x ∈ rest, x.isDir = false ∧ isNNNSql x.name = true :=
      fun x hx => hv x (List.mem_cons_of_mem e hx)
    have hskip : ¬ (e.isDir = true ∨ ¬ hasSuffix e.name ".sql".data = true) := by
      simp [hve.1, hsuf]
    simp only [runMigrationsLoop, if_neg hskip, hver]
    by_cases hmem : ((verNNN e.name : Nat) : Int) ∈ applied
    · rw [if_pos hmem]
      obtain ⟨out, hout, hpw, hnotin, hsrc, hcov⟩ :=
        runMigrationsLoop_spec rest applied hvrest hrp
      refine ⟨out, hout, hpw, hnotin, ?_, ?_⟩
      · intro x hx
        obtain ⟨f, hfm, h1, h2⟩ := hsrc x hx
        exact ⟨f, List.mem_cons_of_mem e hfm, h1, h2⟩
      · intro f hf hvf
        rcases List.mem_cons.mp hf with rfl | hf'
        · exact absurd hmem hvf
        · exact hcov f hf' hvf
    · rw [if_neg hmem]
      obtain ⟨tail, htail, hpw, hnotin, hsrc, hcov⟩ :=
        runMigrationsLoop_spec rest (((verNNN e.name : Nat) : Int) :: applied) hvrest hrp
      rw [htail]
      refine ⟨(((verNNN e.name : Nat) : Int), e.name) :: tail, rfl, ?_, ?_, ?_, ?_⟩
      · rw [List.pairwise_cons]
        refine ⟨?_, hpw⟩
        intro y hy
        obtain ⟨f, hfmem, _, hyver⟩ := hsrc y hy
        have hle : verNNN e.name ≤ verNNN f.name := hef f hfmem
        have hnm := hnotin y hy
        have hne : y.1 ≠ ((verNNN e.name : Nat) : Int) := by
          intro hcontra
          exact hnm (by rw [hcontra]; exact List.mem_cons_self _ _)
        rw [hyver] at hne ⊢
        omega
      · intro x hx
        rcases List.mem_cons.mp hx with rfl | hx'
        · exact hmem
        · intro hcontra
          exact (hnotin x hx') (List.mem_cons_of_mem _ hcontra)
      · intro x hx
        rcases List.mem_cons.mp hx with rfl | hx'
        · exact ⟨e, List.mem_cons_self _ _, rfl, rfl⟩
        · obtain ⟨f, hfm, h1, h2⟩ := hsrc x hx'
          exact ⟨f, List.mem_cons_of_mem e hfm, h1, h2⟩
      · intro f hf hvf
        rcases List.mem_cons.mp hf with rfl | hf'
        · exact ⟨f.name, List.mem_cons_self _ _⟩
        · by_cases heq : ((verNNN f.name : Nat) : Int) = ((verNNN e.name : Nat) : Int)
          · refine ⟨e.name, ?_⟩
            rw [heq]
            exact List.mem_cons_self _ _
          · have hnotin2 : ((verNNN f.name : Nat) : Int) ∉
                (((verNNN e.name : Nat) : Int) :: applied) := by
              intro hcontra
              rcases List.mem_cons.mp hcontra with hcontra' | hcontra'
              · exact heq hcontra'
              · exact hvf hcontra'
            obtain ⟨n, hn⟩ := hcov f hf' hnotin2
            exact ⟨n, List.mem_cons_of_mem _ hn⟩

/-! ## Claim theorems -/

/-- **C3.** `runMigrations` applies the embedded `NNN_*.sql` migrations in
monotonically increasing order of their numeric prefix, each at most once:
the run succeeds, the sequence of applied versions is strictly increasing
(so for every pair of pending migrations the smaller integer prefix is
applied first, and no version is applied twice), every version already
recorded in `_rift.schema_version` is skipped, and every pending
migration's version does get applied. -/
theorem runMigrations_ordered (entries : List DirEntry) (applied : List Int)
    (hv : ∀ e ∈ entries, e.isDir = false ∧ isNNNSql e.name = true) :
    ∃ out, runMigrations entries applied = .ok out ∧
      out.Pairwise (fun x y => x.1 < y.1) ∧
      (∀ x ∈ out, x.1 ∉ applied) ∧
      (∀ e ∈ entries, ((verNNN e.name : Nat) : Int) ∉ applied →
        ∃ n, (((verNNN e.name : Nat) : Int), n) ∈ out) := by
  have hv' : ∀ e ∈ sortByName entries, e.isDir = false ∧ isNNNSql e.name = true :=
    fun e he => hv e ((mem_sortByName e entries).mp he)
  have hp := pairwise_sortByName entries (fun x hx => (hv x hx).2)
  obtain ⟨out, hout, hpw, hnotin, _, hcov⟩ :=
    runMigrationsLoop_spec (sortByName entries) applied hv' hp
  exact ⟨out, hout, hpw, hnotin,
    fun e he hve => hcov e ((mem_sortByName e entries).mpr he) hve⟩

/-- **C3 witness.** Migration files `001_init.sql`, `010_b.sql`,
`002_a.sql` with version 2 already recorded: the run succeeds, applies
strictly increasing versions, skips version 2, and covers the pending
versions. -/
theorem runMigrations_ordered_witness :
    ∃ out, runMigrations [⟨"001_init.sql".data, false⟩, ⟨"010_b.sql".data, false⟩,
        ⟨"002_a.sql".data, false⟩] [2] = .ok out ∧
      out.Pairwise (fun x y => x.1 < y.1) ∧
      (∀ x ∈ out, x.1 ∉ ([2] : List Int)) ∧
      (∀ e ∈ [(⟨"001_init.sql".data, false⟩ : DirEntry), ⟨"010_b.sql".data, false⟩,
          ⟨"002_a.sql".data, false⟩], ((verNNN e.name : Nat) : Int) ∉ ([2] : List Int) →
        ∃ n, (((verNNN e.name : Nat) : Int), n) ∈ out) :=
  runMigrations_ordered
    [⟨"001_init.sql".data, false⟩, ⟨"010_b.sql".data, false⟩, ⟨"002_a.sql".data, false⟩]
    [2] (by decide)

/-- **C4.** For `SELECT * FROM users WHERE id = 1` under config
`{BranchSchema=_rift_branch_dev, SourceSchema=public, PKColumns=[id]}`,
`rewriteSelect` (via `RewriteForBranch`) returns non-passthrough SQL whose
text is exactly the CTE form: it contains the CTE name
`"_rift_merged_users"`, whose body selects overlay rows
`WHERE NOT _rift_tombstone`, `UNION ALL` source rows filtered by a
`NOT EXISTS` clause joining on the primary key, and the outer query is
`SELECT * FROM _rift_merged_users WHERE id = 1`.  Bare table-name
substitution only happens at word boundaries (an adjacent identifier
character blocks it) while a schema-qualified reference is replaced as the
full `schema.name`. -/
theorem rewriteSelect_users_cte :
    rewriteForBranch pqSelUsers cfgUsers = .ok ⟨c4SQL, false, true, "users".data⟩
    ∧ containsSub c4SQL ("\"_rift_merged_users\" AS (").data = true
    ∧ containsSub c4SQL ("WHERE NOT _rift_tombstone").data = true
    ∧ containsSub c4SQL ("UNION ALL").data = true
    ∧ containsSub c4SQL ("NOT EXISTS").data = true
    ∧ containsSub c4SQL ("ovr.\"id\" = src.\"id\"").data = true
    ∧ hasSuffix c4SQL ("\nSELECT * FROM _rift_merged_users WHERE id = 1").data = true
    ∧ replaceWord ("SELECT * FROM userscore").data "users".data "_rift_merged_users".data
        = ("SELECT * FROM userscore").data
    ∧ replaceWord ("SELECT * FROM xusers").data "users".data "_rift_merged_users".data
        = ("SELECT * FROM xusers").data
    ∧ replaceTableRef ("SELECT * FROM public.users").data
        ⟨"public".data, "users".data, []⟩ "_rift_merged_users".data
        = ("SELECT * FROM _rift_merged_users").data := by
  decide

/-- **C5.** For `DELETE FROM users WHERE id = 1` under the same config,
`rewriteDelete` emits exactly two statements separated by `;`: first the
copy-in INSERT that copies matching source rows into the overlay only when
no overlay row with the same primary key exists (the WHERE predicate
requalified to the `src` alias), and second
`UPDATE "_rift_branch_dev"."users" SET _rift_tombstone = true WHERE id = 1`
with table qualifiers stripped from the WHERE clause. -/
theorem rewriteDelete_users_two_statements :
    rewriteForBranch pqDelUsers cfgUsers =
      .ok ⟨c5CopySQL ++ (";\n").data ++ c5TombSQL, false, true, "users".data⟩
    ∧ splitStatements (c5CopySQL ++ (";\n").data ++ c5TombSQL) = [c5CopySQL, c5TombSQL]
    ∧ c5TombSQL =
        ("UPDATE \"_rift_branch_dev\".\"users\" SET _rift_tombstone = true WHERE id = 1").data
    ∧ containsSub c5CopySQL ("INSERT INTO \"_rift_branch_dev\".\"users\"").data = true
    ∧ containsSub c5CopySQL ("WHERE NOT EXISTS (SELECT 1 FROM \"_rift_branch_dev\".\"users\" ovr WHERE ovr.\"id\" = src.\"id\")").data = true
    ∧ hasSuffix c5CopySQL (" AND (id = 1)").data = true
    ∧ requalifyWhereForAlias ("users.id = 1").data "src".data
        ["users".data, [], "users".data] = ("src.id = 1").data := by
  decide

/-- **C1 counterexample.** `Manager.GC` deletes the expired, unpinned
branch `p` even though branch `c` lists `p` as its parent, so GC does not
remove expired branches "only if … childless" as the claim states. -/
theorem managerGC_deletes_parent_with_child :
    ("p".data ∈ (managerGC 10 [⟨"p".data, "main".data, false, some 1, 0⟩,
        ⟨"c".data, "p".data, true, none, 0⟩]).1)
    ∧ ((⟨"c".data, "p".data, true, none, 0⟩ : MBranch) ∈
        [(⟨"p".data, "main".data, false, some 1, 0⟩ : MBranch),
         ⟨"c".data, "p".data, true, none, 0⟩])
    ∧ (⟨"c".data, "p".data, true, none, 0⟩ : MBranch).Parent = "p".data
    ∧ ((⟨"p".data, "main".data, false, some 1, 0⟩ : MBranch) ∉
        (managerGC 10 [⟨"p".data, "main".data, false, some 1, 0⟩,
          ⟨"c".data, "p".data, true, none, 0⟩]).2) := by
  decide

/-- **C1 (amended).** `Engine.DeleteBranch` returns an error and leaves the
store untouched whenever the branch is pinned or another branch lists it
as parent; `Manager.GC` removes a branch exactly when it has a TTL, is
unpinned, and is expired — it does not consult children. -/
theorem deleteBranch_guards_and_gc_unpinned_expired :
    (∀ (st : StoreSt) (name : GoStr) (b : StoreBranch),
      storeGetBranch st name = some b →
      (b.Pinned = true ∨ ∃ c ∈ st.branches, c.Parent = name) →
      (engineDeleteBranch st name).1.isSome = true ∧
        (engineDeleteBranch st name).2 = st)
    ∧ (∀ (now : Nat) (bs : List MBranch) (br : MBranch),
        br ∈ (managerGC now bs).2 ↔
          br ∈ bs ∧ ¬ ∃ t, br.TTL = some t ∧ br.Pinned = false ∧ br.CreatedAt + t < now)
    ∧ (∀ (now : Nat) (bs : List MBranch) (br : MBranch),
        br ∈ bs →
        (∃ t, br.TTL = some t ∧ br.Pinned = false ∧ br.CreatedAt + t < now) →
        br.Name ∈ (managerGC now bs).1) := by
  refine ⟨?_, ?_, ?_⟩
  · intro st name b hb hpc
    rcases hpc with hpin | hchild
    · simp [engineDeleteBranch, hb, hpin]
    · have hfind : (st.branches.find? (fun c => c.Parent = name)).isSome := by
        rw [List.find?_isSome]
        obtain ⟨c, hc, hp⟩ := hchild
        exact ⟨c, hc, by simp [hp]⟩
      obtain ⟨c, hc⟩ := Option.isSome_iff_exists.mp hfind
      by_cases hpin : b.Pinned = true <;>
        simp [engineDeleteBranch, hb, hc, hpin]
  · intro now bs br
    unfold managerGC
    simp only [List.mem_filter]
    rw [← gcExpired_iff now br]
    simp
  · intro now bs br hmem hexp
    unfold managerGC
    simp only [List.mem_map]
    exact ⟨br, List.mem_filter.mpr ⟨hmem, (gcExpired_iff now br).mpr hexp⟩, rfl⟩

/-- **C1 witness.** The amended theorem applied to a concrete pinned
branch (delete refused, store unchanged) and to a concrete expired
unpinned branch (collected by GC). -/
theorem deleteBranch_guards_witness :
    ((engineDeleteBranch ⟨[⟨"q".data, [], true⟩], []⟩ "q".data).1.isSome = true ∧
      (engineDeleteBranch ⟨[⟨"q".data, [], true⟩], []⟩ "q".data).2 =
        ⟨[⟨"q".data, [], true⟩], []⟩)
    ∧ "r".data ∈ (managerGC 5 [⟨"r".data, [], false, some 2, 1⟩]).1 :=
  ⟨deleteBranch_guards_and_gc_unpinned_expired.1 ⟨[⟨"q".data, [], true⟩], []⟩
      "q".data ⟨"q".data, [], true⟩ (by decide) (Or.inl rfl),
   deleteBranch_guards_and_gc_unpinned_expired.2.2 5 [⟨"r".data, [], false, some 2, 1⟩]
      ⟨"r".data, [], false, some 2, 1⟩ (by decide)
      ⟨2, rfl, rfl, by decide⟩⟩

/-- **C2 counterexample.** With an open transaction held, `handleBegin`
emits only `CommandComplete("BEGIN")` and `ReadyForQuery`, and
`handleExtBegin` only `CommandComplete("BEGIN")`: no `NoticeResponse` is
sent, contradicting the claim's "plus a NoticeResponse". -/
theorem handleBegin_inTx_emits_no_notice :
    (handleBegin (.ok 2) ⟨some 1, 'T', none⟩).2 =
      [.commandComplete "BEGIN".data, .readyForQuery 'T']
    ∧ (((handleBegin (.ok 2) ⟨some 1, 'T', none⟩).2.all fun m => !m.isNotice) = true)
    ∧ (handleExtBegin (.ok 2) ⟨some 1, 'T', none⟩).2 = [.commandComplete "BEGIN".data]
    ∧ (((handleExtBegin (.ok 2) ⟨some 1, 'T', none⟩).2.all fun m => !m.isNotice) = true) := by
  decide

/-- **C2 (amended).** For a session already in a transaction (status
`InTx`), BEGIN is a no-op: the simple path emits
`CommandComplete("BEGIN")` and `ReadyForQuery('T')`, the extended path
emits only `CommandComplete("BEGIN")`; no nested transaction is opened and
the session state (held handle and status) is unchanged.  No
NoticeResponse is emitted. -/
theorem handleBegin_inTx_noop (poolBegin : Except GoStr Nat) (s : SessionSt)
    (h : s.tx.isSome = true) (hs : s.txStatus = TxStatusInTx) :
    handleBegin poolBegin s =
      (s, [.commandComplete "BEGIN".data, .readyForQuery TxStatusInTx])
    ∧ handleExtBegin poolBegin s = (s, [.commandComplete "BEGIN".data]) := by
  obtain ⟨id, hid⟩ := Option.isSome_iff_exists.mp h
  refine ⟨?_, ?_⟩ <;> simp [handleBegin, handleExtBegin, hid, hs]

/-- **C2 witness.** The amended no-op behaviour at a concrete in-transaction
session. -/
theorem handleBegin_inTx_noop_witness :
    handleBegin (.ok 7) ⟨some 3, 'T', none⟩ =
      (⟨some 3, 'T', none⟩,
        [.commandComplete "BEGIN".data, .readyForQuery TxStatusInTx])
    ∧ handleExtBegin (.ok 7) ⟨some 3, 'T', none⟩ =
      (⟨some 3, 'T', none⟩, [.commandComplete "BEGIN".data]) :=
  handleBegin_inTx_noop (.ok 7) ⟨some 3, 'T', none⟩ (by decide) (by decide)

/-- **C6.** For every INSERT into a tracked table whose rewrite config
carries primary-key columns and whose statement lists explicit target
columns, `rewriteInsert` redirects the target table to
`branch_schema.table` (the `insertRedirect` steps) and appends
`ON CONFLICT (k1,…,kn) DO UPDATE SET ci = EXCLUDED.ci` for each target
column, followed by `_rift_tombstone = false`, returning a
non-passthrough result with `NeedsOverlay = true`. -/
theorem rewriteInsert_upsert (pq : ParsedQuery) (tbl : TableRef)
    (rest : List TableRef) (configs : List (GoStr × RewriteConfig))
    (cfg : RewriteConfig)
    (ht : pq.Tables = tbl :: rest)
    (hc : lookupConfig configs tbl.Name = some cfg)
    (hpk : cfg.PKColumns ≠ [])
    (hcols : pq.TargetColumns ≠ []) :
    rewriteInsert pq configs =
      .ok ⟨trimRightSemi (trimSpace (insertRedirect pq tbl cfg)) ++
            onConflictClauseSpec cfg.PKColumns pq.TargetColumns,
        false, true, tbl.Name⟩ := by
  have hmaps :
      pq.TargetColumns.map
        (fun col => pgQuoteIdent col ++ " = EXCLUDED.".data ++ pgQuoteIdent col) ≠ [] := by
    intro h
    exact hcols (List.map_eq_nil_iff.mp h)
  have hjoin := joinStr_append_singleton ", ".data "_rift_tombstone = false".data
    (pq.TargetColumns.map
      (fun col => pgQuoteIdent col ++ " = EXCLUDED.".data ++ pgQuoteIdent col)) hmaps
  simp only [rewriteInsert, ht, hc, insertRedirect, onConflictClauseSpec]
  rw [if_pos hpk, hjoin]
  simp [List.append_assoc]

/-- **C6 witness.** The general upsert theorem at
`INSERT INTO users (name) VALUES ('Charlie')` under the `users` config. -/
theorem rewriteInsert_upsert_witness :
    rewriteInsert pqInsUsers cfgUsers =
      .ok ⟨trimRightSemi (trimSpace (insertRedirect pqInsUsers
              ⟨[], "users".data, []⟩
              ⟨"_rift_branch_dev".data, "public".data, ["id".data]⟩)) ++
            onConflictClauseSpec ["id".data] ["name".data],
        false, true, "users".data⟩ :=
  rewriteInsert_upsert pqInsUsers ⟨[], "users".data, []⟩ [] cfgUsers
    ⟨"_rift_branch_dev".data, "public".data, ["id".data]⟩
    rfl (by decide) (by decide) (by decide)

/-- **C7.** For every message type byte `t` and payload `p` with
`len(p) ≤ MaxMessageSize`, `WriteMessage` followed by `ReadMessage` over
the written bytes yields exactly `(t, p)` (and consumes the whole
stream). -/
theorem writeMessage_readMessage_roundtrip (t : Nat) (p : List Nat)
    (ht : t < 256) (hp : p.length ≤ MaxMessageSize) :
    readMessage (writeMessage t p) = .ok (t, p, []) := by
  have hM : MaxMessageSize = 2 ^ 30 := rfl
  have hL : p.length + 4 < 2 ^ 32 := by
    rw [hM] at hp
    omega
  have hfrom : fromBE32 (toBE32 (p.length + 4) ++ p) = p.length + 4 :=
    fromBE32_toBE32 _ hL p
  have h5 : ¬ ((t % 256 :: toBE32 (p.length + 4)) ++ p).length < 5 := by
    simp [toBE32]
  have hdrop5 : ((t % 256 :: toBE32 (p.length + 4)) ++ p).drop 5 = p := rfl
  have hcond : ¬ (((p.length + 4 : Nat) : Int) - 4 < 0 ∨
      ((p.length + 4 : Nat) : Int) - 4 > (MaxMessageSize : Int)) := by
    rw [hM] at hp ⊢
    omega
  have htoNat : (((p.length + 4 : Nat) : Int) - 4).toNat = p.length := by
    omega
  have hdrop1 : List.drop 1 ((t % 256 :: toBE32 (p.length + 4)) ++ p) =
      toBE32 (p.length + 4) ++ p := rfl
  have hhead : ((t % 256 :: toBE32 (p.length + 4)) ++ p).headI = t % 256 := rfl
  simp only [readMessage, writeMessage, hdrop1, hfrom, hdrop5, htoNat, h5,
    if_false, hhead, lt_irrefl, List.take_length, List.drop_length]
  rw [if_neg hcond, Nat.mod_eq_of_lt ht]

/-- **C7 witness.** The roundtrip at a concrete message. -/
theorem writeMessage_readMessage_roundtrip_witness :
    readMessage (writeMessage 88 [1, 2, 3]) = .ok (88, [1, 2, 3], []) :=
  writeMessage_readMessage_roundtrip 88 [1, 2, 3] (by decide) (by decide)

/-- **C8.** `ReadMessage` and `ReadStartupMessage` return
`ErrMessageTooLarge` exactly when the declared payload length (the
big-endian length field minus 4) is negative or exceeds `MaxMessageSize`
(2^30): once the length field is available, the error is `tooLarge` iff
the field is below 4 or above `MaxMessageSize + 4`.  A startup payload of
length exactly `MaxMessageSize` is accepted, and one declared one byte
longer is rejected before any payload is read. -/
theorem readMessage_tooLarge_iff :
    (∀ input : List Nat, 4 ≤ input.length →
      (readStartupMessage input = .error .tooLarge ↔
        (fromBE32 input < 4 ∨ fromBE32 input > MaxMessageSize + 4)))
    ∧ (∀ input : List Nat, 5 ≤ input.length →
      (readMessage input = .error .tooLarge ↔
        (fromBE32 (input.drop 1) < 4 ∨ fromBE32 (input.drop 1) > MaxMessageSize + 4)))
    ∧ (∀ b : Nat,
        readStartupMessage (toBE32 (MaxMessageSize + 4) ++ List.replicate MaxMessageSize b) =
          .ok (List.replicate MaxMessageSize b, []))
    ∧ (∀ tail : List Nat,
        readStartupMessage (toBE32 (MaxMessageSize + 5) ++ tail) = .error .tooLarge) := by
  have hM : MaxMessageSize = 2 ^ 30 := rfl
  refine ⟨?_, ?_, ?_, ?_⟩
  · intro input h4
    have hcond : (((fromBE32 input : Int) - 4 < 0 ∨
        (fromBE32 input : Int) - 4 > (MaxMessageSize : Int))
        ↔ (fromBE32 input < 4 ∨ fromBE32 input > MaxMessageSize + 4)) := by
      rw [hM]
      omega
    unfold readStartupMessage
    rw [if_neg (by omega)]
    by_cases hc : fromBE32 input < 4 ∨ fromBE32 input > MaxMessageSize + 4
    · rw [if_pos (hcond.mpr hc)]
      exact iff_of_true rfl hc
    · rw [if_neg (fun h => hc (hcond.mp h))]
      constructor
      · intro h
        by_cases hlen :
            (input.drop 4).length < ((fromBE32 input : Int) - 4).toNat
        · rw [if_pos hlen] at h
          simp at h
        · rw [if_neg hlen] at h
          simp at h
      · intro h
        exact absurd h hc
  · intro input h5
    have hcond : (((fromBE32 (input.drop 1) : Int) - 4 < 0 ∨
        (fromBE32 (input.drop 1) : Int) - 4 > (MaxMessageSize : Int))
        ↔ (fromBE32 (input.drop 1) < 4 ∨
           fromBE32 (input.drop 1) > MaxMessageSize + 4)) := by
      rw [hM]
      omega
    unfold readMessage
    rw [if_neg (by omega)]
    by_cases hc : fromBE32 (input.drop 1) < 4 ∨
        fromBE32 (input.drop 1) > MaxMessageSize + 4
    · rw [if_pos (hcond.mpr hc)]
      exact iff_of_true rfl hc
    · rw [if_neg (fun h => hc (hcond.mp h))]
      constructor
      · intro h
        by_cases hlen :
            (input.drop 5).length < ((fromBE32 (input.drop 1) : Int) - 4).toNat
        · rw [if_pos hlen] at h
          simp at h
        · rw [if_neg hlen] at h
          simp at h
      · intro h
        exact absurd h hc
  · intro b
    have hval : MaxMessageSize + 4 < 2 ^ 32 := by
      rw [hM]
      omega
    have hfrom : fromBE32 (toBE32 (MaxMessageSize + 4) ++ List.replicate MaxMessageSize b) =
        MaxMessageSize + 4 := fromBE32_toBE32 _ hval _
    have hlen : (toBE32 (MaxMessageSize + 4) ++ List.replicate MaxMessageSize b).length =
        4 + MaxMessageSize := by
      simp [length_toBE32]
    have hdrop : (toBE32 (MaxMessageSize + 4) ++ List.replicate MaxMessageSize b).drop 4 =
        List.replicate MaxMessageSize b := by
      rw [← length_toBE32 (MaxMessageSize + 4)]
      exact List.drop_left _ _
    have htoNat : (((MaxMessageSize + 4 : Nat) : Int) - 4).toNat = MaxMessageSize := by
      omega
    unfold readStartupMessage
    rw [hfrom, if_neg (by rw [hlen]; omega),
      if_neg (by rw [hM]; omega), hdrop, htoNat,
      if_neg (by rw [List.length_replicate]; omega),
      List.take_of_length_le (by rw [List.length_replicate]),
      List.drop_eq_nil_of_le (by rw [List.length_replicate])]
  · intro tail
    have hval : MaxMessageSize + 5 < 2 ^ 32 := by
      rw [hM]
      omega
    have hfrom : fromBE32 (toBE32 (MaxMessageSize + 5) ++ tail) =
        MaxMessageSize + 5 := fromBE32_toBE32 _ hval _
    have hlen : 4 ≤ (toBE32 (MaxMessageSize + 5) ++ tail).length := by
      simp [length_toBE32]
    unfold readStartupMessage
    rw [hfrom, if_neg (by omega), if_pos (by rw [hM]; omega)]

/-- **C8 witness.** The characterization applied at concrete headers: a
startup length field of 3 (declared payload −1) and a regular message
with length field 3 are both rejected as too large. -/
theorem readMessage_tooLarge_iff_witness :
    readStartupMessage [0, 0, 0, 3] = .error .tooLarge
    ∧ readMessage [81, 0, 0, 0, 3] = .error .tooLarge :=
  ⟨(readMessage_tooLarge_iff.1 [0, 0, 0, 3] (by decide)).mpr (by decide),
   (readMessage_tooLarge_iff.2.1 [81, 0, 0, 0, 3] (by decide)).mpr (by decide)⟩

/-- **C9.** For every SQL text and every environment of parser/store
oracles, `Engine.ProcessQuery` on branch `main` returns the input SQL as
`RewrittenSQL` with `IsPassthrough = true`; since the result is the same
for every environment, neither the parser nor the rewriter is consulted. -/
theorem processQuery_main_passthrough (env : EngineEnv) (sql : GoStr) :
    processQuery env "main".data sql = .ok ⟨sql, sql, .unknown, false, true, []⟩ := by
  simp [processQuery]

/-- **C10.** `BranchSchemaName` is `_rift_branch_` + lowercase of the name
with `-`, `.`, `/` replaced by `_` — deterministic but not injective:
`a-b`/`a_b` and `AB`/`ab` are distinct names accepted by
`ValidateBranchName` that map to the same overlay schema. -/
theorem branchSchemaName_shape_not_injective :
    (∀ n : GoStr, branchSchemaName n =
      "_rift_branch_".data ++ (toLowerStr n).map goReplacerChar)
    ∧ validateBranchName "a-b".data = none
    ∧ validateBranchName "a_b".data = none
    ∧ "a-b".data ≠ "a_b".data
    ∧ branchSchemaName "a-b".data = branchSchemaName "a_b".data
    ∧ validateBranchName "AB".data = none
    ∧ validateBranchName "ab".data = none
    ∧ "AB".data ≠ "ab".data
    ∧ branchSchemaName "AB".data = branchSchemaName "ab".data := by
  refine ⟨?_, by decide, by decide, by decide, by decide, by decide, by decide,
    by decide, by decide⟩
  intro n
  unfold branchSchemaName sanitizeBranchName toLowerStr
  rw [List.map_map, List.map_map]
  congr 1
  exact List.map_congr_left (fun a _ => lower_replacer_comm a)

end Rift
